import Mathlib

/-!
Verification development for `rf.go`, the orchestration core of the `rf`
scripted refactoring tool (package `main`, 221 lines).

The file shallowly embeds the source:
strings are modelled as `List Char` (the scripts exercised here are ASCII, so
the byte-level scanning of `trimComments` and the rune-level split of `cutAny`
both coincide with the character-level model); the external `refactor` package
(loader/type-checker, handlers, gofmt, diff, write) is an opaque collaborator
and is modelled as a record of functions (`Env`); observable side effects
(loads, handler invocations, diff emission, disk writes) are recorded in an
event trace.  Loops that consume the script text recurse structurally on a
fuel argument instantiated with the exact text length (each iteration consumes
at least one character, so the fuel never runs out; this keeps every
definition kernel-computable).
-/

/-- Script text and all Go strings are modelled as lists of characters. -/
abbrev Str := List Char

/-- Shorthand to write `Str` literals. -/
def lc (s : String) : Str := s.toList

/-- The zero byte: the value of the quote-state variable `q` in
`trimComments` when no quote is active. -/
def qNone : Char := Char.ofNat 0

/-- `cut` (rf.go lines 191-196), specialized to the single-character
separators (`"\n"`, `"="`) it is applied to in this file. -/
def cut : Str → Char → Str × Str × Bool
  | [], _ => ([], [], false)
  | c :: rest, sep =>
    if c = sep then ([], rest, true)
    else
      let p := cut rest sep
      (c :: p.1, p.2.1, p.2.2)

/-- `cutAny` (rf.go lines 198-204).  The separator sets used in the source
(`" \t"`) contain only one-byte runes, so dropping one character matches the
`utf8.DecodeRuneInString` advance. -/
def cutAny : Str → List Char → Str × Str × Bool
  | [], _ => ([], [], false)
  | c :: rest, anyc =>
    if c ∈ anyc then ([], rest, true)
    else
      let p := cutAny rest anyc
      (c :: p.1, p.2.1, p.2.2)

/-- The scanning loop of `trimComments` (rf.go lines 162-178): walk the line
tracking the active quote `q`; Go's `switch` tries `case q` first, then the
quote characters, then backslash (which consumes the following byte only
inside `'`/`"` quotes), then `#`, which truncates when no quote is active. -/
def trimCommentsLoop (q : Char) : Str → Str
  | [] => []
  | c :: rest =>
    if c = q then c :: trimCommentsLoop qNone rest
    else if c = '\'' ∨ c = '"' ∨ c = '`' then c :: trimCommentsLoop c rest
    else if c = '\\' then
      if q = '\'' ∨ q = '"' then
        match rest with
        | [] => [c]
        | d :: rest2 => c :: d :: trimCommentsLoop q rest2
      else c :: trimCommentsLoop q rest
    else if c = '#' then
      if q = qNone then [] else c :: trimCommentsLoop q rest
    else c :: trimCommentsLoop q rest

/-- The quote state after scanning a list of characters, evolving exactly as
the `q` variable of `trimCommentsLoop` does (same branch structure). -/
def scanQ (q : Char) : Str → Char
  | [] => q
  | c :: rest =>
    if c = q then scanQ qNone rest
    else if c = '\'' ∨ c = '"' ∨ c = '`' then scanQ c rest
    else if c = '\\' then
      if q = '\'' ∨ q = '"' then
        match rest with
        | [] => q
        | _ :: rest2 => scanQ q rest2
      else scanQ q rest
    else scanQ q rest

/-- `unicode.IsSpace` restricted to the ASCII whitespace characters (the only
ones occurring in the scripts considered here). -/
def isSpace (c : Char) : Bool :=
  c = ' ' || c = '\t' || c = '\n' || c = Char.ofNat 11 || c = Char.ofNat 12 || c = '\r'

/-- `strings.TrimSpace`. -/
def trimSpace (s : Str) : Str :=
  ((s.dropWhile fun c => isSpace c).reverse.dropWhile fun c => isSpace c).reverse

/-- `trimComments` (rf.go lines 160-180). -/
def trimComments (line : Str) : Str := trimSpace (trimCommentsLoop qNone line)

/-- `strings.TrimLeft(line, " \t\n")` (rf.go line 78). -/
def trimLeftWs (s : Str) : Str := s.dropWhile fun c => c = ' ' || c = '\t' || c = '\n'

/-- The continuation-joining loop of `run` (rf.go lines 72-77): while the
comment-stripped line ends in a backslash and script text remains, drop the
backslash, append a newline plus the next raw line, and re-strip comments.
The fuel is instantiated with the length of the remaining text; each joined
line consumes at least one character of it. -/
def contLoopF : Nat → Str → Str → Str × Str
  | _, line, [] => (line, [])
  | 0, line, c :: rest => (line, c :: rest)
  | fuel + 1, line, c :: rest =>
    if line.getLast? = some '\\' then
      let p := cut (c :: rest) '\n'
      contLoopF fuel (trimComments (line.dropLast ++ '\n' :: p.1)) p.2.1
    else (line, c :: rest)

/-- The continuation loop at its canonical fuel. -/
def contLoop (line text : Str) : Str × Str := contLoopF text.length line text

/-- One logical line extraction (rf.go lines 69-77): cut at the first newline,
strip comments, then join backslash-continued lines. -/
def readLine (text : Str) : Str × Str :=
  let p := cut text '\n'
  contLoopF p.2.1.length (trimComments p.1) p.2.1

/-- The logical-line sequence produced by the loop of `run`
(rf.go lines 68-81): repeatedly extract a logical line, trim leading
whitespace, and skip blank lines. -/
def tokenizeF : Nat → Str → List Str
  | _, [] => []
  | 0, _ :: _ => []
  | fuel + 1, c :: rest =>
    let p := readLine (c :: rest)
    let line := trimLeftWs p.1
    if line = [] then tokenizeF fuel p.2 else line :: tokenizeF fuel p.2

/-- Tokenization at its canonical fuel. -/
def tokenize (script : Str) : List Str := tokenizeF script.length script

/-- The command lines split into (name, argument) pairs as `run` line 82
does. -/
def commandsOf (script : Str) : List (Str × Str) :=
  (tokenize script).map fun l => ((cutAny l [' ', '\t']).1, (cutAny l [' ', '\t']).2.1)

/-- A checkpoint of the workspace produced by the external loader
(`refactor.Snapshot`, opaque to this core): an identity for its current
content, the diagnostic count of its last load (mutable by handlers, which may
append diagnostics synchronously), and whether `Target().Types` is non-nil. -/
structure Snapshot where
  sid : Nat
  errors : Nat
  hasTypes : Bool
deriving DecidableEq

/-- The `loader` interface (rf.go lines 58-60): the chain's base is either the
initial `*refactor.Refactor` workspace or a previous `*refactor.Snapshot`. -/
inductive Loader where
  | refactorBase
  | snap (s : Snapshot)
deriving DecidableEq

/-- The external `refactor` package, consumed through its narrow interface:
initial load, snapshot reload, the per-command handlers (opaque mutations of a
snapshot given the argument string), `Gofmt`, `Diff` and `Write` (result
`none` means success), plus the mode flag and the `refactor.New` outcome. -/
structure Env where
  showDiff : Bool
  refactorLoad : Except Str Snapshot
  snapLoad : Snapshot → Except Str Snapshot
  handler : Str → Snapshot → Str → Snapshot
  gofmt : Snapshot → Snapshot
  diffOf : Snapshot → Except Str Str
  writeRes : Snapshot → Option Str
  newErr : Option Str

/-- `base.Load()` dispatched through the `loader` interface. -/
def loadOf (env : Env) : Loader → Except Str Snapshot
  | .refactorBase => env.refactorLoad
  | .snap s => env.snapLoad s

/-- Observable side effects of a run, in order: a load through a base, a
handler invocation (with the snapshot as loaded), a diff written to the output
sink, a snapshot written to disk. -/
inductive Event where
  | loaded (b : Loader)
  | ran (cmd : Str) (args : Str) (s : Snapshot)
  | emittedDiff (s : Snapshot)
  | wrote (s : Snapshot)
deriving DecidableEq

/-- The result of `run`: a nil error, a non-nil error carrying its message, or
a runtime panic. -/
inductive Outcome where
  | ok
  | fail (msg : Str)
  | panicked (msg : Str)
deriving DecidableEq

/-- How the command loop of `run` ended: fell off the script (carrying the
final value of the `snap` variable) or returned early with an outcome. -/
inductive LoopRes where
  | done (snap : Option Snapshot)
  | aborted (o : Outcome)
deriving DecidableEq

/-- The keys of the `cmds` registry (rf.go lines 48-56). -/
def cmdNames : List Str :=
  [lc "add", lc "debug", lc "inline", lc "key", lc "ex", lc "mv", lc "rm"]

/-- `cmds[cmd] != nil`: the registry is fixed; the handler bodies live in the
external collaborator `Env.handler`. -/
def knownCmd (cmd : Str) : Bool := cmdNames.contains cmd

/-- `lastCmd` recording (rf.go lines 112-116): the first physical sub-line,
with a ` \ ...` truncation marker when the logical line spans several. -/
def recordCmd (line : Str) : Str :=
  let p := cut line '\n'
  if p.2.2 then p.1 ++ lc " \\ ..." else p.1

/-- The command loop of `run` (rf.go lines 62-131), recursing structurally on
a fuel instantiated with the length of the remaining script text (each
iteration consumes at least one character, so the fuel-exhausted branch is
unreachable from `runLoopGo`).  Per iteration: extract a logical line, skip it
if blank, look the command up in the registry (before any load, lines 88-91),
`base.Load()`, the attributed-validation check on the diagnostic count (lines
98-111, where the `base.(*refactor.Snapshot)` type assertion panics if the
base is still the initial workspace), record `lastCmd`, the `Target().Types`
panic check, run the handler, the synchronous-diagnostic check (lines 125-127,
where `return err` returns the `err` value left `nil` by the successful load),
`Gofmt`, and advance the base. -/
def runLoopF (env : Env) : Nat → Str → Loader → Option Snapshot → Str → LoopRes × List Event
  | _, [], _, snap, _ => (.done snap, [])
  | 0, _ :: _, _, snap, _ => (.done snap, [])
  | fuel + 1, c :: rest, base, snap, lastCmd =>
    let p := readLine (c :: rest)
    let line := trimLeftWs p.1
    if line = [] then runLoopF env fuel p.2 base snap lastCmd
    else
      let cmd := (cutAny line [' ', '\t']).1
      let args := (cutAny line [' ', '\t']).2.1
      if knownCmd cmd then
        match loadOf env base with
        | .error e => (.aborted (.fail e), [.loaded base])
        | .ok s =>
          if 0 < s.errors then
            if lastCmd = [] then
              (.aborted (.fail (lc "errors found before executing script")), [.loaded base])
            else
              match base with
              | .refactorBase =>
                (.aborted (.panicked (lc "interface conversion")), [.loaded base])
              | .snap b =>
                (.aborted (.fail (lc "errors found after executing: " ++ lastCmd)),
                  .loaded base ::
                    (if env.showDiff then
                      match env.diffOf b with
                      | .ok _ => [.emittedDiff b]
                      | .error _ => []
                    else [.wrote b]))
          else
            let x := recordCmd line
            if s.hasTypes then
              let s2 := env.handler cmd s args
              if 0 < s2.errors then
                (.aborted .ok, [.loaded base, .ran cmd args s])
              else
                let s3 := env.gofmt s2
                let r := runLoopF env fuel p.2 (.snap s3) (some s3) x
                (r.1, .loaded base :: .ran cmd args s :: r.2)
            else
              (.aborted (.panicked (lc "no types in target")), [.loaded base])
      else
        (.aborted (.fail (lc "unknown command " ++ cmd)), [])

/-- The command loop started as `run` starts it: initial base, no snapshot,
empty `lastCmd`, canonical fuel. -/
def runLoopGo (env : Env) (script : Str) : LoopRes × List Event :=
  runLoopF env script.length script .refactorBase none []

/-- The finalizer of `run` (rf.go lines 138-157), reached when the loop fell
off the script with a non-nil `snap`: in diff mode, compute the diff (a diff
error aborts) and emit it before the final reload; reload (a load error is
reported as `checking rewritten packages`); then either stop (diff mode) or
write, returning the write's result. -/
def finalize (env : Env) (s : Snapshot) : Outcome × List Event :=
  if env.showDiff then
    match env.diffOf s with
    | .error e => (.fail e, [])
    | .ok _ =>
      match env.snapLoad s with
      | .error e =>
        (.fail (lc "checking rewritten packages: " ++ e), [.emittedDiff s, .loaded (.snap s)])
      | .ok _ => (.ok, [.emittedDiff s, .loaded (.snap s)])
  else
    match env.snapLoad s with
    | .error e => (.fail (lc "checking rewritten packages: " ++ e), [.loaded (.snap s)])
    | .ok _ =>
      match env.writeRes s with
      | some e => (.fail e, [.loaded (.snap s), .wrote s])
      | none => (.ok, [.loaded (.snap s), .wrote s])

/-- `run` (rf.go lines 62-158): the command loop, then — unless the loop
returned early or did nothing — the finalizer. -/
def run (env : Env) (script : Str) : Outcome × List Event :=
  match runLoopGo env script with
  | (.aborted o, evs) => (o, evs)
  | (.done none, evs) => (.ok, evs)
  | (.done (some s), evs) =>
    let f := finalize env s
    (f.1, evs ++ f.2)

/-- `main` (rf.go lines 26-46) reduced to its exit status and the run's
events: a wrong argument count calls `usage()` which exits with status 2
before any script processing; a `refactor.New` or `run` error goes through
`log.Fatal`, which exits with status 1; a Go runtime panic exits with
status 2 as well. -/
def mainRun (env : Env) (args : List Str) : Nat × List Event :=
  match args with
  | [script] =>
    match env.newErr with
    | some _ => (1, [])
    | none =>
      match run env script with
      | (.ok, evs) => (0, evs)
      | (.fail _, evs) => (1, evs)
      | (.panicked _, evs) => (2, evs)
  | _ => (2, [])

/-- `refactor.Item` as the core uses it (spec §3): a named declaration node
with a single owning-scope back-reference `Outer`; the inductive model makes
every `Outer` chain finite and acyclic. -/
inductive Item where
  | mk (name : Str) (outer : Option Item)

/-- The `Outer` field. -/
def Item.outer : Item → Option Item
  | .mk _ o => o

/-- `topItem` (rf.go lines 184-189): walk `Outer` references to the root;
`nil` maps to `nil`. -/
def topItem : Option Item → Option Item
  | none => none
  | some (.mk n none) => some (.mk n none)
  | some (.mk _ (some o)) => topItem (some o)

/-- Reflexive-transitive closure of the `Outer` reference: `OuterChain i j`
means `j` is reachable from `i` by walking owner references. -/
inductive OuterChain : Item → Item → Prop
  | refl (i : Item) : OuterChain i i
  | step {i : Item} {j k : Item} : i.outer = some j → OuterChain j k → OuterChain i k

/-- A write-mode collaborator in which every handler edit loads cleanly except
the one produced by the second command: the initial load yields content 1;
a handler turns content `n` into content `n + 10`; reloading content 11 (after
the first command) succeeds, reloading content 12 (after the second command)
reveals one diagnostic. -/
def envA : Env where
  showDiff := false
  refactorLoad := .ok ⟨1, 0, true⟩
  snapLoad := fun s =>
    if s.sid = 11 then .ok ⟨2, 0, true⟩
    else if s.sid = 12 then .ok ⟨3, 1, true⟩
    else .ok ⟨99, 0, true⟩
  handler := fun _ s _ => ⟨s.sid + 10, 0, true⟩
  gofmt := id
  diffOf := fun _ => .ok (lc "DIFF")
  writeRes := fun _ => none
  newErr := none

/-- A collaborator whose handlers append a diagnostic synchronously (visible
immediately, without a reload). -/
def envB : Env where
  showDiff := false
  refactorLoad := .ok ⟨1, 0, true⟩
  snapLoad := fun _ => .ok ⟨9, 0, true⟩
  handler := fun _ s _ => ⟨s.sid + 10, 1, true⟩
  gofmt := id
  diffOf := fun _ => .ok (lc "DIFF")
  writeRes := fun _ => none
  newErr := none

/-- A collaborator whose initial workspace load already carries five
diagnostics. -/
def envC : Env where
  showDiff := false
  refactorLoad := .ok ⟨1, 5, true⟩
  snapLoad := fun _ => .ok ⟨9, 0, true⟩
  handler := fun _ s _ => ⟨s.sid + 10, 0, true⟩
  gofmt := id
  diffOf := fun _ => .ok (lc "DIFF")
  writeRes := fun _ => none
  newErr := none

/-- A diff-mode collaborator in which every load succeeds cleanly. -/
def envD : Env where
  showDiff := true
  refactorLoad := .ok ⟨1, 0, true⟩
  snapLoad := fun s => if s.sid = 11 then .ok ⟨2, 0, true⟩ else .ok ⟨9, 0, true⟩
  handler := fun _ s _ => ⟨s.sid + 10, 0, true⟩
  gofmt := id
  diffOf := fun _ => .ok (lc "DIFF")
  writeRes := fun _ => none
  newErr := none


theorem cut_after_lt (s : Str) (sep : Char) (h : s ≠ []) :
    (cut s sep).2.1.length < s.length := by
  induction s with
  | nil => exact absurd rfl h
  | cons c rest ih =>
    simp only [cut]
    by_cases hc : c = sep
    · simp [hc]
    · simp only [if_neg hc]
      rcases rest with _ | ⟨d, rest'⟩
      · simp [cut]
      · exact Nat.lt_succ_of_lt (ih (by simp))

theorem contLoopF_after_le (fuel : Nat) (line t : Str) :
    (contLoopF fuel line t).2.length ≤ t.length := by
  induction fuel generalizing line t with
  | zero => rcases t with _ | ⟨c, rest⟩ <;> simp [contLoopF]
  | succ f ih =>
    rcases t with _ | ⟨c, rest⟩
    · simp [contLoopF]
    · simp only [contLoopF]
      by_cases hb : line.getLast? = some '\\'
      · simp only [if_pos hb]
        calc (contLoopF f (trimComments (line.dropLast ++ '\n' :: (cut (c :: rest) '\n').1))
                (cut (c :: rest) '\n').2.1).2.length
            ≤ (cut (c :: rest) '\n').2.1.length := ih _ _
          _ ≤ (c :: rest).length := Nat.le_of_lt (cut_after_lt _ _ (by simp))
      · simp [if_neg hb]

theorem readLine_after_lt (text : Str) (h : text ≠ []) :
    (readLine text).2.length < text.length := by
  unfold readLine
  calc (contLoopF (cut text '\n').2.1.length (trimComments (cut text '\n').1)
          (cut text '\n').2.1).2.length
      ≤ (cut text '\n').2.1.length := contLoopF_after_le _ _ _
    _ < text.length := cut_after_lt _ _ h

theorem contLoopF_irrel (f1 : Nat) : ∀ (f2 : Nat) (line t : Str),
    t.length ≤ f1 → t.length ≤ f2 → contLoopF f1 line t = contLoopF f2 line t := by
  induction f1 with
  | zero =>
    intro f2 line t h1 _
    have ht : t = [] := List.length_eq_zero.mp (Nat.le_zero.mp h1)
    subst ht
    cases f2 <;> simp [contLoopF]
  | succ f ih =>
    intro f2 line t h1 h2
    rcases t with _ | ⟨c, rest⟩
    · cases f2 <;> simp [contLoopF]
    · rcases f2 with _ | g
      · exact absurd h2 (by simp)
      · simp only [contLoopF]
        by_cases hb : line.getLast? = some '\\'
        · simp only [if_pos hb]
          have hlt : (cut (c :: rest) '\n').2.1.length < (c :: rest).length :=
            cut_after_lt _ _ (by simp)
          exact ih g _ _ (by omega) (by omega)
        · simp [if_neg hb]

/-- The continuation loop joins a backslash-terminated line with the next raw
line and re-strips comments (rf.go lines 72-77). -/
theorem contLoop_join (l t : Str) (hb : l.getLast? = some '\\') (ht : t ≠ []) :
    contLoop l t
      = contLoop (trimComments (l.dropLast ++ '\n' :: (cut t '\n').1)) (cut t '\n').2.1 := by
  rcases t with _ | ⟨c, rest⟩
  · exact absurd rfl ht
  · show contLoopF (c :: rest).length l (c :: rest) = _
    simp only [List.length_cons, contLoopF, if_pos hb]
    have hlt : (cut (c :: rest) '\n').2.1.length < (c :: rest).length :=
      cut_after_lt _ _ (by simp)
    exact contLoopF_irrel _ _ _ _ (by simp at hlt ⊢; omega) (Nat.le_refl _)

theorem tcl_cons (q c : Char) (rest : Str) :
    trimCommentsLoop q (c :: rest)
      = if c = q then c :: trimCommentsLoop qNone rest
        else if c = '\'' ∨ c = '"' ∨ c = '`' then c :: trimCommentsLoop c rest
        else if c = '\\' then
          if q = '\'' ∨ q = '"' then
            match rest with
            | [] => [c]
            | d :: rest2 => c :: d :: trimCommentsLoop q rest2
          else c :: trimCommentsLoop q rest
        else if c = '#' then
          if q = qNone then [] else c :: trimCommentsLoop q rest
        else c :: trimCommentsLoop q rest := by
  cases rest <;> rfl

theorem scanQ_cons (q c : Char) (rest : Str) :
    scanQ q (c :: rest)
      = if c = q then scanQ qNone rest
        else if c = '\'' ∨ c = '"' ∨ c = '`' then scanQ c rest
        else if c = '\\' then
          if q = '\'' ∨ q = '"' then
            match rest with
            | [] => q
            | _ :: rest2 => scanQ q rest2
          else scanQ q rest
        else scanQ q rest := by
  cases rest <;> rfl

theorem trimLoop_split_aux (n : Nat) : ∀ (s : Str), s.length ≤ n → ∀ q : Char,
    trimCommentsLoop q s = s ∨
      ∃ pre post, s = pre ++ '#' :: post ∧ trimCommentsLoop q s = pre ∧ scanQ q pre = qNone := by
  induction n with
  | zero =>
    intro s hs q
    have h : s = [] := List.length_eq_zero.mp (Nat.le_zero.mp hs)
    subst h
    left; rfl
  | succ n ih =>
    intro s hs q
    rcases s with _ | ⟨c, rest⟩
    · left; rfl
    · have hrest : rest.length ≤ n := by simpa using hs
      rw [tcl_cons]
      by_cases h1 : c = q
      · rw [if_pos h1]
        rcases ih rest hrest qNone with h | ⟨pre, post, e1, e2, e3⟩
        · left; rw [h]
        · right
          refine ⟨c :: pre, post, by rw [e1]; rfl, by rw [e2], ?_⟩
          rw [scanQ_cons, if_pos h1, e3]
      · rw [if_neg h1]
        by_cases h2 : c = '\'' ∨ c = '"' ∨ c = '`'
        · rw [if_pos h2]
          rcases ih rest hrest c with h | ⟨pre, post, e1, e2, e3⟩
          · left; rw [h]
          · right
            refine ⟨c :: pre, post, by rw [e1]; rfl, by rw [e2], ?_⟩
            rw [scanQ_cons, if_neg h1, if_pos h2, e3]
        · rw [if_neg h2]
          by_cases h3 : c = '\\'
          · rw [if_pos h3]
            by_cases h4 : q = '\'' ∨ q = '"'
            · rw [if_pos h4]
              rcases rest with _ | ⟨d, rest2⟩
              · left; rfl
              · have hrest2 : rest2.length ≤ n := by
                  simp only [List.length_cons] at hs hrest ⊢; omega
                rcases ih rest2 hrest2 q with h | ⟨pre, post, e1, e2, e3⟩
                · left; show c :: d :: trimCommentsLoop q rest2 = _; rw [h]
                · right
                  refine ⟨c :: d :: pre, post, by rw [e1]; rfl,
                    by show c :: d :: trimCommentsLoop q rest2 = _; rw [e2], ?_⟩
                  rw [scanQ_cons, if_neg h1, if_neg h2, if_pos h3, if_pos h4]
                  show scanQ q pre = qNone
                  exact e3
            · rw [if_neg h4]
              rcases ih rest hrest q with h | ⟨pre, post, e1, e2, e3⟩
              · left; rw [h]
              · right
                refine ⟨c :: pre, post, by rw [e1]; rfl, by rw [e2], ?_⟩
                rw [scanQ_cons, if_neg h1, if_neg h2, if_pos h3, if_neg h4, e3]
          · rw [if_neg h3]
            by_cases h5 : c = '#'
            · rw [if_pos h5]
              by_cases h6 : q = qNone
              · rw [if_pos h6]
                right
                exact ⟨[], rest, by rw [h5]; rfl, rfl, h6⟩
              · rw [if_neg h6]
                rcases ih rest hrest q with h | ⟨pre, post, e1, e2, e3⟩
                · left; rw [h]
                · right
                  refine ⟨c :: pre, post, by rw [e1]; rfl, by rw [e2], ?_⟩
                  rw [scanQ_cons, if_neg h1, if_neg h2, if_neg h3, e3]
            · rw [if_neg h5]
              rcases ih rest hrest q with h | ⟨pre, post, e1, e2, e3⟩
              · left; rw [h]
              · right
                refine ⟨c :: pre, post, by rw [e1]; rfl, by rw [e2], ?_⟩
                rw [scanQ_cons, if_neg h1, if_neg h2, if_neg h3, e3]

theorem scanQ_single (q c : Char) (h : q ≠ qNone) : scanQ q [c] = qNone ↔ c = q := by
  rw [scanQ_cons]
  by_cases h1 : c = q
  · simp [h1, scanQ]
  · rw [if_neg h1]
    by_cases h2 : c = '\'' ∨ c = '"' ∨ c = '`'
    · rw [if_pos h2]
      show c = qNone ↔ c = q
      constructor
      · intro hc
        exfalso
        rcases h2 with h2 | h2 | h2 <;> rw [h2] at hc <;> exact absurd hc (by decide)
      · intro hc; exact absurd hc h1
    · rw [if_neg h2]
      by_cases h3 : c = '\\'
      · rw [if_pos h3]
        by_cases h4 : q = '\'' ∨ q = '"'
        · rw [if_pos h4]
          show q = qNone ↔ c = q
          exact ⟨fun hq => absurd hq h, fun hc => absurd hc h1⟩
        · rw [if_neg h4]
          show q = qNone ↔ c = q
          exact ⟨fun hq => absurd hq h, fun hc => absurd hc h1⟩
      · rw [if_neg h3]
        show q = qNone ↔ c = q
        exact ⟨fun hq => absurd hq h, fun hc => absurd hc h1⟩

theorem topItem_base (n : Str) : topItem (some (Item.mk n none)) = some (Item.mk n none) := by
  simp [topItem]

theorem topItem_step (n : Str) (o : Item) :
    topItem (some (Item.mk n (some o))) = topItem (some o) := by
  simp [topItem]

theorem topItem_exists : ∀ i : Item,
    ∃ r, topItem (some i) = some r ∧ r.outer = none ∧ OuterChain i r
  | .mk n none => ⟨.mk n none, topItem_base n, rfl, .refl _⟩
  | .mk n (some o) => by
    obtain ⟨r, h1, h2, h3⟩ := topItem_exists o
    exact ⟨r, by rw [topItem_step n o, h1], h2, .step rfl h3⟩

theorem topItem_unique (i r' : Item) (h : OuterChain i r') :
    r'.outer = none → topItem (some i) = some r' := by
  induction h with
  | refl j =>
    intro hnone
    rcases j with ⟨n, o⟩
    have ho : o = none := hnone
    subst ho
    exact topItem_base n
  | step h1 h2 ih =>
    intro hnone
    rename_i i0 j0 k0
    rcases i0 with ⟨n, o⟩
    have ho : o = some j0 := h1
    subst ho
    rw [topItem_step n j0]
    exact ih hnone

theorem runLoop_done_no_wrote (env : Env) : ∀ (fuel : Nat) (text : Str) (base : Loader)
    (snap : Option Snapshot) (lastCmd : Str) (res : Option Snapshot) (evs : List Event),
    runLoopF env fuel text base snap lastCmd = (.done res, evs) →
    ∀ s', Event.wrote s' ∉ evs := by
  intro fuel
  induction fuel with
  | zero =>
    intro text base snap lastCmd res evs h s'
    rcases text with _ | ⟨c, rest⟩ <;>
      (simp only [runLoopF, Prod.mk.injEq] at h; rcases h with ⟨h1, h2⟩; subst h2; simp)
  | succ f ih =>
    intro text base snap lastCmd res evs h s'
    rcases text with _ | ⟨c, rest⟩
    · simp only [runLoopF, Prod.mk.injEq] at h
      rcases h with ⟨h1, h2⟩; subst h2; simp
    · simp only [runLoopF] at h
      split at h
      · exact ih _ _ _ _ _ _ h s'
      · split at h
        · split at h
          · simp at h
          · split at h
            · split at h
              · simp at h
              · split at h
                · simp at h
                · simp at h
            · split at h
              · split at h
                · simp at h
                · rcases h' : runLoopF env f (readLine (c :: rest)).2
                      (.snap (env.gofmt (env.handler (cutAny (trimLeftWs (readLine (c :: rest)).1) [' ', '\t']).1
                        _ (cutAny (trimLeftWs (readLine (c :: rest)).1) [' ', '\t']).2.1)))
                      (some (env.gofmt (env.handler (cutAny (trimLeftWs (readLine (c :: rest)).1) [' ', '\t']).1
                        _ (cutAny (trimLeftWs (readLine (c :: rest)).1) [' ', '\t']).2.1)))
                      (recordCmd (trimLeftWs (readLine (c :: rest)).1)) with ⟨r1, r2⟩
                  rw [h'] at h
                  simp only [Prod.mk.injEq] at h
                  obtain ⟨h1, h2⟩ := h
                  subst h2
                  rw [h1] at h'
                  intro hmem
                  simp only [List.mem_cons] at hmem
                  rcases hmem with hm | hm | hm
                  · exact Event.noConfusion hm
                  · exact Event.noConfusion hm
                  · exact ih _ _ _ _ _ _ h' s' hm
              · simp at h
        · simp at h

theorem runLoop_no_assert_panic (env : Env) : ∀ (fuel : Nat) (text : Str) (base : Loader)
    (snap : Option Snapshot) (lastCmd : Str),
    (base = .refactorBase → lastCmd = []) →
    (runLoopF env fuel text base snap lastCmd).1
      ≠ .aborted (.panicked (lc "interface conversion")) := by
  intro fuel
  induction fuel with
  | zero =>
    intro text base snap lastCmd _
    rcases text with _ | ⟨c, rest⟩ <;> simp [runLoopF]
  | succ f ih =>
    intro text base snap lastCmd hinv
    rcases text with _ | ⟨c, rest⟩
    · simp [runLoopF]
    · simp only [runLoopF]
      split
      · exact ih _ _ _ _ hinv
      · split
        · split
          · simp
          · split
            · split
              · simp
              · next hlast =>
                split
                · exact absurd (hinv rfl) hlast
                · simp
            · split
              · split
                · exact fun hcontra =>
                    (by decide : LoopRes.aborted Outcome.ok
                        ≠ LoopRes.aborted (.panicked (lc "interface conversion"))) hcontra
                · exact ih _ _ _ _ (fun hx => Loader.noConfusion hx)
              · exact fun hcontra =>
                  (by decide : LoopRes.aborted (.panicked (lc "no types in target"))
                      ≠ LoopRes.aborted (.panicked (lc "interface conversion"))) hcontra
        · simp

theorem runLoop_preexisting (env : Env) (s0 : Snapshot) (h0 : env.refactorLoad = .ok s0)
    (herr : 0 < s0.errors) : ∀ (fuel : Nat) (text : Str) (snap : Option Snapshot) (l : Str),
    (tokenizeF fuel text).head? = some l →
    knownCmd (cutAny l [' ', '\t']).1 = true →
    runLoopF env fuel text .refactorBase snap []
      = (.aborted (.fail (lc "errors found before executing script")), [.loaded .refactorBase]) := by
  intro fuel
  induction fuel with
  | zero =>
    intro text snap l hl _
    rcases text with _ | ⟨c, rest⟩ <;> simp [tokenizeF] at hl
  | succ f ih =>
    intro text snap l hl hk
    rcases text with _ | ⟨c, rest⟩
    · simp [tokenizeF] at hl
    · simp only [tokenizeF] at hl
      simp only [runLoopF]
      by_cases hline : trimLeftWs (readLine (c :: rest)).1 = []
      · rw [if_pos hline] at hl ⊢
        exact ih _ _ _ hl hk
      · rw [if_neg hline] at hl ⊢
        simp only [List.head?_cons, Option.some.injEq] at hl
        subst hl
        rw [if_pos hk]
        simp only [loadOf, h0]
        rw [if_pos herr]
        simp

theorem finalize_no_panic (env : Env) (s : Snapshot) (msg : Str) :
    (finalize env s).1 ≠ .panicked msg := by
  unfold finalize
  split
  · split
    · simp
    · split <;> simp
  · split
    · simp
    · split <;> simp

/-- Claim C1, counterexample: in `envA` the second command (`rm b`) introduces
a diagnostic detectable only by reload.  The run aborts naming `rm b` itself —
not command k−1 (`mv a`) — and the state persisted before aborting is snapshot
11-after-rm = 12, the one carrying `rm b`'s own (broken) edits, not
snapshot 11, the state after `mv a`. -/
theorem rfC1_counterexample :
    run envA (lc "mv a\nrm b\nadd c\n")
      = (.fail (lc "errors found after executing: rm b"),
         [.loaded .refactorBase, .ran (lc "mv") (lc "a") ⟨1, 0, true⟩,
          .loaded (.snap ⟨11, 0, true⟩), .ran (lc "rm") (lc "b") ⟨2, 0, true⟩,
          .loaded (.snap ⟨12, 0, true⟩), .wrote ⟨12, 0, true⟩]) := by decide

/-- Claim C1, amended: if command k introduces a diagnostic detectable only by
reload (its post-handler, post-gofmt snapshot `b` reloads with a positive
diagnostic count at the next iteration), the run aborts with a failure naming
exactly command k's own recorded line text (`lastCmd`), and the state eagerly
diffed (diff mode) or persisted (write mode) before aborting is `b` itself —
the snapshot carrying command k's edits — detection happening one command
later but attribution falling on the introducing command. -/
theorem rfC1_attribution_amended (env : Env)
    (text kLine kCmd kArgs lastCmd : Str) (s0 b sNew : Snapshot)
    (_hrec : lastCmd = recordCmd kLine)
    (_hb : b = env.gofmt (env.handler kCmd s0 kArgs))
    (hne : lastCmd ≠ [])
    (hline : trimLeftWs (readLine text).1 ≠ [])
    (hknown : knownCmd (cutAny (trimLeftWs (readLine text).1) [' ', '\t']).1 = true)
    (hload : env.snapLoad b = .ok sNew)
    (herr : 0 < sNew.errors) :
    runLoopF env text.length text (.snap b) (some b) lastCmd
      = (.aborted (.fail (lc "errors found after executing: " ++ lastCmd)),
         Event.loaded (.snap b) ::
           (if env.showDiff then
              match env.diffOf b with
              | .ok _ => [Event.emittedDiff b]
              | .error _ => []
            else [Event.wrote b])) := by
  rcases text with _ | ⟨c, rest⟩
  · exact absurd (by decide : trimLeftWs (readLine ([] : Str)).1 = []) hline
  · show runLoopF env (rest.length + 1) (c :: rest) (.snap b) (some b) lastCmd = _
    simp only [runLoopF]
    rw [if_neg hline, if_pos hknown]
    simp only [loadOf, hload]
    rw [if_pos herr, if_neg hne]

/-- Claim C1, witness: the amended theorem applied to `envA` at the concrete
iteration that follows the diagnostic-introducing `rm b` command. -/
theorem rfC1_witness :
    runLoopF envA (lc "add c\n").length (lc "add c\n")
        (.snap ⟨12, 0, true⟩) (some ⟨12, 0, true⟩) (lc "rm b")
      = (.aborted (.fail (lc "errors found after executing: " ++ lc "rm b")),
         Event.loaded (.snap ⟨12, 0, true⟩) ::
           (if envA.showDiff then
              match envA.diffOf ⟨12, 0, true⟩ with
              | .ok _ => [Event.emittedDiff ⟨12, 0, true⟩]
              | .error _ => []
            else [Event.wrote ⟨12, 0, true⟩])) :=
  rfC1_attribution_amended envA (lc "add c\n") (lc "rm b") (lc "rm") (lc "b") (lc "rm b")
    ⟨2, 0, true⟩ ⟨12, 0, true⟩ ⟨3, 1, true⟩
    (by decide) (by decide) (by decide) (by decide) (by decide) rfl (by decide)

/-- Claim C2: in `envB` the `mv` handler appends a diagnostic synchronously
(`errors = 1` immediately after the handler, no reload involved).  The run
does abort — the trace shows no second command ever ran — but, because line
126 returns the `err` variable that the successful `base.Load()` left `nil`,
`run` returns a nil error (`Outcome.ok`): the claimed non-nil error describing
the synchronous failure is never produced. -/
theorem rfC2_sync_check_returns_nil :
    run envB (lc "mv a\nrm b\n")
      = (.ok, [.loaded .refactorBase, .ran (lc "mv") (lc "a") ⟨1, 0, true⟩])
    ∧ 0 < (envB.handler (lc "mv") ⟨1, 0, true⟩ (lc "a")).errors := by
  exact ⟨by decide, by decide⟩

/-- Claim C3: when the command loop falls off the script with a final snapshot
`s`: in diff mode no disk write happens anywhere in the run, and (when the
diff computation succeeds) the diff of `s` is emitted strictly before the
final reload event; in write mode a final-reload failure yields the
`checking rewritten packages` error with no write event, and a final-reload
success appends the write of `s` after the reload event. -/
theorem rfC3_finalizer_order (env : Env) (script : Str) (s : Snapshot) (evs : List Event)
    (h : runLoopGo env script = (.done (some s), evs)) :
    (env.showDiff = true →
        (∀ s', Event.wrote s' ∉ (run env script).2)
      ∧ (∀ d, env.diffOf s = .ok d →
          (run env script).2 = evs ++ [Event.emittedDiff s, Event.loaded (Loader.snap s)]))
    ∧ (env.showDiff = false →
        (∀ e, env.snapLoad s = .error e →
          run env script = (.fail (lc "checking rewritten packages: " ++ e),
            evs ++ [Event.loaded (Loader.snap s)]))
      ∧ (∀ t, env.snapLoad s = .ok t →
          (run env script).2 = evs ++ [Event.loaded (Loader.snap s), Event.wrote s])) := by
  have hrun : run env script = ((finalize env s).1, evs ++ (finalize env s).2) := by
    unfold run
    rw [show runLoopGo env script = (LoopRes.done (some s), evs) from h]
  have hnw : ∀ s', Event.wrote s' ∉ evs := fun s' =>
    runLoop_done_no_wrote env script.length script .refactorBase none [] (some s) evs h s'
  constructor
  · intro hmode
    constructor
    · intro s' hmem
      rw [hrun] at hmem
      simp only [List.mem_append] at hmem
      rcases hmem with hm | hm
      · exact hnw s' hm
      · revert hm
        unfold finalize
        rw [if_pos hmode]
        cases hd : env.diffOf s with
        | error e => simp
        | ok d =>
          cases hl : env.snapLoad s with
          | error e => simp
          | ok t => simp
    · intro d hd
      rw [hrun]
      unfold finalize
      rw [if_pos hmode, hd]
      cases hl : env.snapLoad s with
      | error e => simp
      | ok t => simp
  · intro hmode
    have hneg : ¬(env.showDiff = true) := by rw [hmode]; exact Bool.false_ne_true
    constructor
    · intro e he
      rw [hrun]
      unfold finalize
      rw [if_neg hneg, he]
    · intro t ht
      rw [hrun]
      unfold finalize
      rw [if_neg hneg, ht]
      cases hw : env.writeRes s with
      | some e => simp
      | none => simp

/-- Claim C3, witness: the theorem applied to the diff-mode collaborator
`envD` on a one-command script. -/
theorem rfC3_witness :
    (run envD (lc "mv a\n")).2
      = [Event.loaded .refactorBase, Event.ran (lc "mv") (lc "a") ⟨1, 0, true⟩]
        ++ [Event.emittedDiff ⟨11, 0, true⟩, Event.loaded (.snap ⟨11, 0, true⟩)] :=
  ((rfC3_finalizer_order envD (lc "mv a\n") ⟨11, 0, true⟩
      [Event.loaded .refactorBase, Event.ran (lc "mv") (lc "a") ⟨1, 0, true⟩]
      (by decide)).1 rfl).2 (lc "DIFF") rfl

/-- Claim C4, counterexample: in `envC` the initial workspace already carries
five diagnostics, yet on the script `zz a` the run reports the unknown
command, not `errors found before executing script`, and performs no load at
all: the dispatcher lookup (rf.go line 88) runs before acquisition
(line 94), so PreexistingErrors does not take precedence when the first
command's name is unknown. -/
theorem rfC4_counterexample :
    run envC (lc "zz a\n") = (.fail (lc "unknown command zz"), []) := by decide

/-- Claim C4, amended: if the initial load reports a positive diagnostic count
and the first command of the script resolves to a known handler, the run
aborts with the PreexistingErrors failure after the single initial load and
dispatches no command (the trace holds exactly that load).  When the first
command's name is unknown, `UnknownCommand` wins instead, because dispatcher
resolution precedes acquisition. -/
theorem rfC4_preexisting_amended (env : Env) (script : Str) (s0 : Snapshot) (l : Str)
    (h0 : env.refactorLoad = .ok s0) (herr : 0 < s0.errors)
    (hl : (tokenize script).head? = some l)
    (hk : knownCmd (cutAny l [' ', '\t']).1 = true) :
    run env script
      = (.fail (lc "errors found before executing script"), [.loaded .refactorBase]) := by
  have h := runLoop_preexisting env s0 h0 herr script.length script none l hl hk
  unfold run runLoopGo
  rw [h]

/-- Claim C4, witness: the amended theorem applied to `envC` on a script whose
first command is the known `mv`. -/
theorem rfC4_witness :
    run envC (lc "mv a\n")
      = (.fail (lc "errors found before executing script"), [.loaded .refactorBase]) :=
  rfC4_preexisting_amended envC (lc "mv a\n") ⟨1, 5, true⟩ (lc "mv a")
    rfl (by decide) (by decide) (by decide)

/-- Claim C5: comment stripping never treats a quoted `#` as a comment start.
The scanning loop either keeps the whole line, or cuts it exactly at a `#`
before which the tracked quote state is inactive (everything before that `#`
is retained verbatim); and from any active quote state, a single character
deactivates the quote exactly when it is the matching quote character. -/
theorem rfC5_comment_quotes :
    (∀ s : Str, trimCommentsLoop qNone s = s ∨
      ∃ pre post, s = pre ++ '#' :: post ∧ trimCommentsLoop qNone s = pre
        ∧ scanQ qNone pre = qNone)
    ∧ (∀ q c : Char, q ≠ qNone → (scanQ q [c] = qNone ↔ c = q)) :=
  ⟨fun s => trimLoop_split_aux s.length s (Nat.le_refl _) qNone, scanQ_single⟩

/-- Claim C5, witness: a double quote closes an active double-quote span. -/
theorem rfC5_witness : scanQ '"' ['"'] = qNone :=
  (rfC5_comment_quotes.2 '"' '"' (by decide)).mpr rfl

/-- Claim C6: a comment-stripped line ending in a backslash is joined with the
next raw line (newline inserted, comments re-stripped after joining) whenever
script text remains; a backslash at end-of-line immediately followed by
end-of-script is not treated as a continuation; concretely, `mv a \⏎b⏎` is
one logical line `mv a⏎b` while `mv a \` at end-of-script keeps its
backslash. -/
theorem rfC6_continuation :
    (∀ l t : Str, l.getLast? = some '\\' → t ≠ [] →
      contLoop l t
        = contLoop (trimComments (l.dropLast ++ '\n' :: (cut t '\n').1)) (cut t '\n').2.1)
    ∧ (∀ l : Str, contLoop l [] = (l, []))
    ∧ tokenize (lc "mv a \\\nb\n") = [lc "mv a \nb"]
    ∧ tokenize (lc "mv a \\") = [lc "mv a \\"] :=
  ⟨contLoop_join, fun l => rfl, by decide, by decide⟩

/-- Claim C6, witness: the joining clause applied to the concrete line
`mv a \` with remaining text `b⏎`. -/
theorem rfC6_witness :
    contLoop (lc "mv a \\") (lc "b\n")
      = contLoop (trimComments ((lc "mv a \\").dropLast ++ '\n' :: (cut (lc "b\n") '\n').1))
          (cut (lc "b\n") '\n').2.1 :=
  rfC6_continuation.1 (lc "mv a \\") (lc "b\n") (by decide) (by decide)

/-- Claim C7: the tokenizer maps `mv a b⏎rm c  # comment⏎` to exactly the two
commands `mv` with argument `a b` and `rm` with argument `c`, and maps
`add [backtick]x#y[backtick]⏎` to exactly one command `add` whose argument
keeps the backticked `#`. -/
theorem rfC7_tokenize_examples :
    commandsOf (lc "mv a b\nrm c  # comment\n") = [(lc "mv", lc "a b"), (lc "rm", lc "c")]
    ∧ commandsOf (lc "add `x#y`\n") = [(lc "add", lc "`x#y`")] :=
  ⟨by decide, by decide⟩

/-- Claim C8, counterexample: a malformed invocation exits with the usage
status 2 while a script-execution failure exits with status 1, and
`1 < 2`: the usage status is the numerically higher of the two non-zero
codes, not strictly lower as claimed. -/
theorem rfC8_counterexample :
    mainRun envC [] = (2, []) ∧ mainRun envC [lc "zz a"] = (1, []) ∧ 1 < 2 :=
  ⟨by decide, by decide, by decide⟩

/-- Claim C8, amended: a malformed invocation (argument count other than one)
exits with status 2 and performs no script processing (empty trace); a script
whose run fails exits through `log.Fatal` with status 1; the two codes are
distinct and non-zero, with the usage code the numerically higher one. -/
theorem rfC8_exit_codes_amended :
    (∀ (env : Env) (args : List Str), args.length ≠ 1 → mainRun env args = (2, []))
    ∧ (∀ (env : Env) (script msg : Str) (evs : List Event),
        env.newErr = none → run env script = (.fail msg, evs) →
        mainRun env [script] = (1, evs))
    ∧ (2 : Nat) ≠ 1 ∧ 0 < (2 : Nat) ∧ 0 < (1 : Nat) ∧ 1 < (2 : Nat) := by
  refine ⟨?_, ?_, by decide, by decide, by decide, by decide⟩
  · intro env args hne
    rcases args with _ | ⟨a, rest⟩
    · rfl
    · rcases rest with _ | ⟨b, rest2⟩
      · exact absurd rfl hne
      · rfl
  · intro env script msg evs hnew hrun
    simp only [mainRun, hnew, hrun]

/-- Claim C8, witness: the amended theorem applied to an invocation with zero
arguments. -/
theorem rfC8_witness : mainRun envC ([] : List Str) = (2, []) :=
  rfC8_exit_codes_amended.1 envC [] (by decide)

/-- Claim C9: `topItem` maps nil to nil, and on any item it terminates (it is
a total function of the inductive model, in which every `Outer` chain is
finite and acyclic) returning the unique `Outer`-reachable ancestor whose
`Outer` reference is nil. -/
theorem rfC9_topItem :
    topItem none = none
    ∧ ∀ i : Item, ∃ r, topItem (some i) = some r ∧ r.outer = none ∧ OuterChain i r
        ∧ ∀ r', OuterChain i r' → r'.outer = none → r' = r := by
  constructor
  · simp [topItem]
  · intro i
    obtain ⟨r, h1, h2, h3⟩ := topItem_exists i
    refine ⟨r, h1, h2, h3, ?_⟩
    intro r' hc hn
    have hu := topItem_unique i r' hc hn
    rw [h1] at hu
    exact (Option.some_inj.mp hu).symm

/-- Claim C9, witness: the theorem applied to a two-level item chain resolves
the nested item to its root. -/
theorem rfC9_witness :
    topItem (some (Item.mk (lc "x") (some (Item.mk (lc "p") none))))
      = some (Item.mk (lc "p") none) := by
  obtain ⟨r, h1, _, _, hu⟩ := rfC9_topItem.2 (Item.mk (lc "x") (some (Item.mk (lc "p") none)))
  have hr := hu (Item.mk (lc "p") none)
    (OuterChain.step rfl (OuterChain.refl (Item.mk (lc "p") none))) rfl
  rw [h1, hr]

/-- Claim C10: in every reachable iteration of the command loop, a non-empty
`lastCmd` guarantees the base is a Snapshot produced by a previous iteration,
so the `base.(*refactor.Snapshot)` type assertion in the attributed-validation
branch never fails: no run ever ends in the interface-conversion panic. -/
theorem rfC10_assertion_safe (env : Env) (script : Str) :
    (run env script).1 ≠ Outcome.panicked (lc "interface conversion") := by
  have h := runLoop_no_assert_panic env script.length script .refactorBase none []
    (fun _ => rfl)
  unfold run runLoopGo
  rcases hre : runLoopF env script.length script .refactorBase none [] with ⟨r, evs⟩
  rw [hre] at h
  rcases r with sn | o
  · rcases sn with _ | s
    · simp
    · exact finalize_no_panic env s _
  · exact fun hx => h (by rw [show o = Outcome.panicked (lc "interface conversion") from hx])

/-- Claim C10, witness: the theorem applied to a concrete collaborator and
script. -/
theorem rfC10_witness :
    (run envA (lc "mv a\nrm b\nadd c\n")).1 ≠ Outcome.panicked (lc "interface conversion") :=
  rfC10_assertion_safe envA (lc "mv a\nrm b\nadd c\n")
